import Mathlib

/-!
Verification of the claudecodeui task-queue / fleet-reconciliation core.

The development shallowly embeds the JavaScript modules
`server/middleware/janua-auth.js` and the two services bundled in
`server/services/agentDiscoveryService.js` (agent discovery and the task
submission service).  Remote collaborators (Redis, Kubernetes, the key
issuer, `Date.now()`, the random task-id suffix) are modelled as explicit
inputs; stateful procedures are modelled by explicit state passing.  The
JSON (de)serialization used for the task `context` field is modelled by a
concrete serializer and parser over a `Json` value type, with a verified
round-trip.
-/

set_option maxHeartbeats 1000000

namespace JsonModel

/-- JSON values: the model of the JSON-serializable JavaScript values the
service stores in the task context payload.  Numbers are modelled as
integers (the model of `JSON.stringify`/`JSON.parse` below covers integral
numbers, which is exact for every value the service itself constructs). -/
inductive Json where
  | null : Json
  | bool : Bool → Json
  | num : Int → Json
  | str : String → Json
  | arr : List Json → Json
  | obj : List (String × Json) → Json
deriving Repr

/-- Decimal digit character, `digitChar10 3 = '3'`. -/
def digitChar10 (d : Nat) : Char := Char.ofNat (48 + d)

/-- Lowercase hexadecimal digit character. -/
def hexDigitChar (n : Nat) : Char :=
  if n < 10 then Char.ofNat (48 + n) else Char.ofNat (87 + n)

/-- Fuel-indexed most-significant-first decimal digits of a positive
number; `natDigitsAux f n` is exact whenever `n ≤ f`. -/
def natDigitsAux : Nat → Nat → List Char
  | 0, _ => []
  | f + 1, n => if n = 0 then [] else natDigitsAux f (n / 10) ++ [digitChar10 (n % 10)]

/-- Decimal representation of a natural number, as emitted by
`JSON.stringify` for a nonnegative integral number. -/
def natDigits (n : Nat) : List Char :=
  if n = 0 then ['0'] else natDigitsAux n n

/-- Decimal representation of an integer, as emitted by `JSON.stringify`
for an integral number. -/
def intChars (i : Int) : List Char :=
  if i < 0 then '-' :: natDigits i.natAbs else natDigits i.toNat

/-- The escape sequence `JSON.stringify` emits for one character of a
string: quote and backslash are backslash-escaped, the five named control
escapes are used where they exist, remaining control characters become
`\u00XX`, and every other character is emitted literally. -/
def escapeChar (c : Char) : List Char :=
  if c = '"' then ['\\', '"']
  else if c = '\\' then ['\\', '\\']
  else if c = '\x08' then ['\\', 'b']
  else if c = '\t' then ['\\', 't']
  else if c = '\n' then ['\\', 'n']
  else if c = '\x0c' then ['\\', 'f']
  else if c = '\r' then ['\\', 'r']
  else if c.toNat < 32 then
    ['\\', 'u', '0', '0', hexDigitChar (c.toNat / 16), hexDigitChar (c.toNat % 16)]
  else [c]

/-- String-body escaping: `escapeChar` applied to every character. -/
def escapeList : List Char → List Char
  | [] => []
  | c :: cs => escapeChar c ++ escapeList cs

mutual
/-- Characters `JSON.stringify(value)` produces (the default stringify,
which emits no whitespace). -/
def stringifyChars : Json → List Char
  | .null => ['n', 'u', 'l', 'l']
  | .bool b => if b then ['t', 'r', 'u', 'e'] else ['f', 'a', 'l', 's', 'e']
  | .num i => intChars i
  | .str s => '"' :: (escapeList s.data ++ ['"'])
  | .arr [] => ['[', ']']
  | .arr (x :: xs) => '[' :: (arrBody x xs ++ [']'])
  | .obj [] => ['\x7b', '\x7d']
  | .obj (m :: ms) => '\x7b' :: (objBody m ms ++ ['\x7d'])
termination_by j => sizeOf j
decreasing_by all_goals simp_wf; all_goals omega

/-- Comma-separated serialization of a nonempty list of array elements. -/
def arrBody : Json → List Json → List Char
  | x, [] => stringifyChars x
  | x, y :: ys => stringifyChars x ++ ',' :: arrBody y ys
termination_by x xs => sizeOf x + sizeOf xs
decreasing_by all_goals simp_wf; all_goals omega

/-- Serialization of one object member, `"key":value`. -/
def memberChars : String × Json → List Char
  | (k, v) => '"' :: (escapeList k.data ++ '"' :: ':' :: stringifyChars v)
termination_by m => sizeOf m
decreasing_by all_goals simp_wf

/-- Comma-separated serialization of a nonempty list of object members. -/
def objBody : String × Json → List (String × Json) → List Char
  | m, [] => memberChars m
  | m, m2 :: ms => memberChars m ++ ',' :: objBody m2 ms
termination_by m ms => sizeOf m + sizeOf ms
decreasing_by all_goals simp_wf; all_goals omega
end

/-- The model of `JSON.stringify`. -/
def stringify (j : Json) : String := String.mk (stringifyChars j)

/-- Value of a hexadecimal digit character (JSON allows both cases). -/
def hexVal (c : Char) : Option Nat :=
  if 48 ≤ c.toNat ∧ c.toNat ≤ 57 then some (c.toNat - 48)
  else if 97 ≤ c.toNat ∧ c.toNat ≤ 102 then some (c.toNat - 87)
  else if 65 ≤ c.toNat ∧ c.toNat ≤ 70 then some (c.toNat - 55)
  else none

/-- Build a character from a valid code point. -/
def mkChar (n : Nat) (h : n.isValidChar) : Char :=
  ⟨⟨⟨n, by rcases h with h | ⟨h1, h2⟩ <;> omega⟩⟩, h⟩

/-- Parse the body of a string escape sequence (the part after the
backslash). -/
def parseEscape : List Char → Option (Char × List Char)
  | [] => none
  | c :: r =>
    if c = '"' then some ('"', r)
    else if c = '\\' then some ('\\', r)
    else if c = '/' then some ('/', r)
    else if c = 'b' then some ('\x08', r)
    else if c = 'f' then some ('\x0c', r)
    else if c = 'n' then some ('\n', r)
    else if c = 'r' then some ('\r', r)
    else if c = 't' then some ('\t', r)
    else if c = 'u' then
      match r with
      | h1 :: h2 :: h3 :: h4 :: r2 =>
        match hexVal h1, hexVal h2, hexVal h3, hexVal h4 with
        | some a, some b, some c2, some d =>
          let n := ((a * 16 + b) * 16 + c2) * 16 + d
          if h : n.isValidChar then some (mkChar n h, r2) else none
        | _, _, _, _ => none
      | _ => none
    else none

/-- Parse the remainder of a JSON string after the opening quote, through
the closing quote; fuel-indexed (one unit per produced character plus one
for the closing quote). -/
def parseStringRest : Nat → List Char → Option (List Char × List Char)
  | 0, _ => none
  | _ + 1, [] => none
  | f + 1, c :: r =>
    if c = '"' then some ([], r)
    else if c = '\\' then
      match parseEscape r with
      | none => none
      | some (d, r2) => (parseStringRest f r2).map (fun p => (d :: p.1, p.2))
    else if c.toNat < 32 then none
    else (parseStringRest f r).map (fun p => (c :: p.1, p.2))

/-- Maximal prefix of decimal digit characters. -/
def takeDigits : List Char → List Char × List Char
  | [] => ([], [])
  | c :: r =>
    if c.isDigit then
      let p := takeDigits r
      (c :: p.1, p.2)
    else ([], c :: r)

/-- Value of a most-significant-first list of decimal digit characters. -/
def digitsToNat (ds : List Char) : Nat :=
  ds.foldl (fun a c => a * 10 + (c.toNat - 48)) 0

/-- Parse a nonempty run of decimal digits. -/
def parseNumChars (l : List Char) : Option (Nat × List Char) :=
  let p := takeDigits l
  if p.1.isEmpty then none else some (digitsToNat p.1, p.2)

mutual
/-- Fuel-indexed JSON value parser: the model of `JSON.parse` on the
whitespace-free documents `JSON.stringify` emits. -/
def parseJson : Nat → List Char → Option (Json × List Char)
  | 0, _ => none
  | _ + 1, [] => none
  | f + 1, c :: r =>
    if c = 'n' then
      match r with
      | 'u' :: 'l' :: 'l' :: r2 => some (.null, r2)
      | _ => none
    else if c = 't' then
      match r with
      | 'r' :: 'u' :: 'e' :: r2 => some (.bool true, r2)
      | _ => none
    else if c = 'f' then
      match r with
      | 'a' :: 'l' :: 's' :: 'e' :: r2 => some (.bool false, r2)
      | _ => none
    else if c = '"' then
      (parseStringRest f r).map (fun p => (.str (String.mk p.1), p.2))
    else if c = '[' then
      match r with
      | [] => none
      | c2 :: r2 =>
        if c2 = ']' then some (.arr [], r2)
        else (parseElems f (c2 :: r2)).map (fun p => (.arr p.1, p.2))
    else if c = '\x7b' then
      match r with
      | [] => none
      | c2 :: r2 =>
        if c2 = '\x7d' then some (.obj [], r2)
        else (parseMembers f (c2 :: r2)).map (fun p => (.obj p.1, p.2))
    else if c = '-' then
      (parseNumChars r).map (fun p => (.num (-(p.1 : Int)), p.2))
    else if c.isDigit then
      (parseNumChars (c :: r)).map (fun p => (.num (p.1 : Int), p.2))
    else none

/-- Parse the elements of a nonempty array body through the closing
bracket. -/
def parseElems : Nat → List Char → Option (List Json × List Char)
  | 0, _ => none
  | f + 1, l =>
    match parseJson f l with
    | none => none
    | some (j, r) =>
      match r with
      | [] => none
      | c :: r2 =>
        if c = ',' then (parseElems f r2).map (fun p => (j :: p.1, p.2))
        else if c = ']' then some ([j], r2)
        else none

/-- Parse the members of a nonempty object body through the closing
brace. -/
def parseMembers : Nat → List Char → Option (List (String × Json) × List Char)
  | 0, _ => none
  | _ + 1, [] => none
  | f + 1, c :: r =>
    if c = '"' then
      match parseStringRest f r with
      | none => none
      | some (k, r2) =>
        match r2 with
        | [] => none
        | c2 :: r3 =>
          if c2 = ':' then
            match parseJson f r3 with
            | none => none
            | some (v, r4) =>
              match r4 with
              | [] => none
              | c3 :: r5 =>
                if c3 = ',' then
                  (parseMembers f r5).map (fun p => ((String.mk k, v) :: p.1, p.2))
                else if c3 = '\x7d' then some ([(String.mk k, v)], r5)
                else none
          else none
    else none
end

/-- The model of `JSON.parse`: parse a whole document (input length plus
one is always enough fuel; `jfuel_le_length` below).  Returns `none`
where `JSON.parse` would throw. -/
def parseJsonString (s : String) : Option Json :=
  match parseJson (s.data.length + 1) s.data with
  | some (j, []) => some j
  | _ => none

/-- The remaining input starts with something other than a decimal digit
(or is empty), so a maximal-munch digit run ending there is parsed back
unchanged. -/
def NoDigitHead : List Char → Prop
  | [] => True
  | c :: _ => c.isDigit = false

mutual
/-- Fuel sufficient for `parseJson` to parse the serialization of a value. -/
def jfuel : Json → Nat
  | .null => 1
  | .bool _ => 1
  | .num _ => 1
  | .str s => s.data.length + 2
  | .arr [] => 1
  | .arr (x :: xs) => 1 + efuel x xs
  | .obj [] => 1
  | .obj (m :: ms) => 1 + mfuel m ms
termination_by j => sizeOf j
decreasing_by all_goals simp_wf; all_goals omega

/-- Fuel sufficient for `parseElems` on a nonempty element list. -/
def efuel : Json → List Json → Nat
  | x, [] => 1 + jfuel x
  | x, y :: ys => 1 + max (jfuel x) (efuel y ys)
termination_by x xs => sizeOf x + sizeOf xs
decreasing_by all_goals simp_wf; all_goals omega

/-- Fuel sufficient for `parseMembers` on a nonempty member list. -/
def mfuel : String × Json → List (String × Json) → Nat
  | (k, v), [] => 1 + max (k.data.length + 1) (jfuel v)
  | (k, v), m2 :: ms => 1 + max (max (k.data.length + 1) (jfuel v)) (mfuel m2 ms)
termination_by m ms => sizeOf m + sizeOf ms
decreasing_by all_goals simp_wf; all_goals omega
end


end JsonModel

namespace TaskQueue

open JsonModel

/-- Byte-order comparison of character lists: the model of the
lexicographic member ordering Redis uses to break score ties in a sorted
set (codepoint order, which agrees with UTF-8 byte order). -/
def listCharLtB : List Char → List Char → Bool
  | [], [] => false
  | [], _ :: _ => true
  | _ :: _, [] => false
  | a :: as, b :: bs =>
    if a.toNat < b.toNat then true
    else if b.toNat < a.toNat then false
    else listCharLtB as bs

/-- Byte-order comparison of strings. -/
def strLtB (a b : String) : Bool := listCharLtB a.data b.data

/-- A Redis sorted set, as a list of (member, score) entries with unique
members; the ranking order is derived by `zRank`. -/
abbrev SortedSet := List (String × Int)

/-- Model of Redis `ZADD`: insert the member with the score, replacing the
score if the member is already present. -/
def zAdd (s : SortedSet) (member : String) (score : Int) : SortedSet :=
  if s.any (fun e => e.1 == member) then
    s.map (fun e => if e.1 == member then (member, score) else e)
  else s ++ [(member, score)]

/-- Model of Redis `ZREM`. -/
def zRem (s : SortedSet) (member : String) : SortedSet :=
  s.filter (fun e => !(e.1 == member))

/-- Model of Redis `ZCARD`. -/
def zCard (s : SortedSet) : Nat := s.length

/-- The Redis sorted-set ordering on entries: ascending score, ties broken
by byte-order of the member. -/
def entryLt (a b : String × Int) : Bool :=
  decide (a.2 < b.2) || (a.2 == b.2 && strLtB a.1 b.1)

/-- Model of Redis `ZRANK`: the number of entries strictly before the
member in the sorted-set ordering, `none` if the member is absent. -/
def zRank (s : SortedSet) (member : String) : Option Nat :=
  match s.find? (fun e => e.1 == member) with
  | none => none
  | some e => some ((s.filter (fun x => entryLt x e)).length)

/-- A stored task record: exactly the fields `submitTask` writes into the
Redis hash for the task.  `context` holds the JSON-serialized payload
string; the cancellation fields are absent until `cancelTask` merges them
in. -/
structure TaskRecord where
  id : String
  instruction : String
  repository : String
  branch : String
  priority : Int
  context : String
  submittedBy : String
  submittedAt : Int
  status : String
  agentId : Option String
  startedAt : Option String
  completedAt : Option String
  result : Option String
  error : Option String
  cancelledAt : Option Int
  cancelledBy : Option String
deriving Repr, DecidableEq

/-- The slice of the shared Redis store the task service uses: the task
hashes and the pending sorted set. -/
structure Store where
  tasks : List (String × TaskRecord)
  pending : SortedSet
deriving Repr, DecidableEq

/-- Model of `hGetAll` on a task hash (`none` models the empty hash a
missing key yields). -/
def hGetTask (st : Store) (taskId : String) : Option TaskRecord :=
  (st.tasks.find? (fun e => e.1 == taskId)).map (fun e => e.2)

/-- Model of `hSet` writing a full task hash. -/
def putTask (st : Store) (taskId : String) (r : TaskRecord) : Store :=
  if st.tasks.any (fun e => e.1 == taskId) then
    { st with tasks := st.tasks.map (fun e => if e.1 == taskId then (taskId, r) else e) }
  else { st with tasks := st.tasks ++ [(taskId, r)] }

/-- Model of `hSet` merging fields into an existing task hash. -/
def modifyTask (st : Store) (taskId : String) (f : TaskRecord → TaskRecord) : Store :=
  { st with tasks := st.tasks.map (fun e => if e.1 == taskId then (e.1, f e.2) else e) }

/-- A task specification as submitted by a caller; `none` models an absent
field.  Absent and empty string-valued fields behave identically under the
falsy checks the source performs on them. -/
structure TaskSpec where
  instruction : Option String
  repository : Option String
  branch : Option String
  priority : Option Int
  context : Option Json

/-- JS falsiness of a possibly-absent string field (`undefined` and the
empty string are both falsy). -/
def isFalsyS (v : Option String) : Bool :=
  match v with
  | none => true
  | some s => s == ""

/-- JS `x || d` on a possibly-absent string field. -/
def jsOrString (v : Option String) (d : String) : String :=
  match v with
  | none => d
  | some s => if s == "" then d else s

/-- JS `x || d` on a possibly-absent integral number (`0` is falsy). -/
def jsOrInt (v : Option Int) (d : Int) : Int :=
  match v with
  | none => d
  | some p => if p == 0 then d else p

/-- JS truthiness of a JSON value (`null`, `false`, `0` and `""` are
falsy; every object or array is truthy). -/
def jsTruthy (j : Json) : Bool :=
  match j with
  | .null => false
  | .bool b => b
  | .num n => !(n == 0)
  | .str s => !(s == "")
  | .arr _ => true
  | .obj _ => true

/-- The context value `submitTask` actually serializes:
`taskSpec.context || {}`. -/
def effectiveContext (c : Option Json) : Json :=
  match c with
  | none => Json.obj []
  | some j => if jsTruthy j then j else Json.obj []

/-- The order key `submitTask` computes for the pending sorted set:
`priority * 1000000 + Date.now()` (the comment in the source reads
"Priority + timestamp for FIFO within priority"). -/
def taskScore (priority : Int) (now : Int) : Int := priority * 1000000 + now

/-- Model of `estimateWaitTime`: 600 seconds per task, divided by the
agent-count estimate `max(1, ceil(queueDepth / 3))`, rounded up. -/
def estimateWaitTime (pending : SortedSet) : Nat :=
  let queueDepth := zCard pending
  let avgTaskDuration := 600
  let estimatedAgents := max 1 ((queueDepth + 2) / 3)
  (queueDepth * avgTaskDuration + (estimatedAgents - 1)) / estimatedAgents

/-- Model of `getQueuePosition`: 0-indexed rank in the pending sorted set,
`null` when not queued. -/
def getQueuePosition (st : Store) (taskId : String) : Option Nat :=
  zRank st.pending taskId

/-- The error `submitTask` throws when validation fails. -/
inductive SubmitError where
  | validationError : SubmitError
deriving Repr, DecidableEq

/-- The object `submitTask` returns on success. -/
structure SubmitOk where
  taskId : String
  status : String
  queuePosition : Option Nat
  estimatedWaitTime : Nat
deriving Repr, DecidableEq

/-- Model of `submitTask(taskSpec, userId)`.  The generated task id and
the clock reading are explicit inputs (`generateTaskId()` draws
randomness; `Date.now()` reads the clock); the same instant is used for
the `submittedAt` field and the order key. -/
def submitTask (st : Store) (spec : TaskSpec) (userId : String) (taskId : String)
    (now : Int) : Except SubmitError (SubmitOk × Store) :=
  if isFalsyS spec.instruction || isFalsyS spec.repository then
    .error .validationError
  else
    let ctx := effectiveContext spec.context
    let task : TaskRecord := {
      id := taskId
      instruction := jsOrString spec.instruction ""
      repository := jsOrString spec.repository ""
      branch := jsOrString spec.branch "main"
      priority := jsOrInt spec.priority 3
      context := stringify ctx
      submittedBy := userId
      submittedAt := now
      status := "pending"
      agentId := none
      startedAt := none
      completedAt := none
      result := none
      error := none
      cancelledAt := none
      cancelledBy := none }
    let st2 := putTask st taskId task
    let pending2 := zAdd st2.pending taskId (taskScore task.priority now)
    let st3 : Store := { st2 with pending := pending2 }
    .ok ({ taskId := taskId
           status := "pending"
           queuePosition := getQueuePosition st3 taskId
           estimatedWaitTime := estimateWaitTime st3.pending }, st3)

/-- What `getTaskDetails` returns: the stored hash with the `context`
string parsed back to a JSON value.  A `none` context models the throw of
`JSON.parse` on a corrupted stored field; the `|| "{}"` fallback applies
when the stored field is absent or empty. -/
structure TaskDetails where
  id : String
  instruction : String
  repository : String
  branch : String
  priority : Int
  context : Option Json
  submittedBy : String
  submittedAt : Int
  status : String
  agentId : Option String
  startedAt : Option String
  completedAt : Option String
  result : Option String
  error : Option String
  cancelledAt : Option Int
  cancelledBy : Option String
deriving Repr

/-- The spread-plus-parse `getTaskDetails` performs on one stored hash. -/
def detailsOfRecord (r : TaskRecord) : TaskDetails := {
  id := r.id
  instruction := r.instruction
  repository := r.repository
  branch := r.branch
  priority := r.priority
  context := parseJsonString (if r.context == "" then String.mk ['\x7b', '\x7d'] else r.context)
  submittedBy := r.submittedBy
  submittedAt := r.submittedAt
  status := r.status
  agentId := r.agentId
  startedAt := r.startedAt
  completedAt := r.completedAt
  result := r.result
  error := r.error
  cancelledAt := r.cancelledAt
  cancelledBy := r.cancelledBy }

/-- Model of `getTaskDetails(taskId)`. -/
def getTaskDetails (st : Store) (taskId : String) : Option TaskDetails :=
  (hGetTask st taskId).map detailsOfRecord

/-- The errors `cancelTask` throws. -/
inductive CancelError where
  | notFound : CancelError
  | notAuthorized : CancelError
  | invalidState : String → CancelError
deriving Repr, DecidableEq

/-- Model of `cancelTask(taskId, userId)`.  Every error path throws before
any Redis write, so it returns the store unchanged; the success path
removes the queue entry and merges the cancellation fields into the task
hash.  `now` models the `Date.now()` instant recorded as the cancellation
time. -/
def cancelTask (st : Store) (taskId : String) (userId : String) (now : Int) :
    Except CancelError Unit × Store :=
  match getTaskDetails st taskId with
  | none => (.error .notFound, st)
  | some task =>
    if task.submittedBy != userId then (.error .notAuthorized, st)
    else if task.status != "pending" then (.error (.invalidState task.status), st)
    else
      let st2 : Store := { st with pending := zRem st.pending taskId }
      let st3 := modifyTask st2 taskId (fun r =>
        { r with status := "cancelled", cancelledAt := some now, cancelledBy := some userId })
      (.ok (), st3)


/-- The postcondition of a successful `submitTask` call: the record is
persisted with status `pending` and null assignment/progress fields, the
defaults apply to unspecified priority and branch, the queue entry is in
the pending sorted set, and the returned object carries the new id, the
computed 0-indexed queue position and the wait-time estimate. -/
def submitSuccessPost (spec : TaskSpec) (taskId : String) (now : Int)
    (res : SubmitOk) (st2 : Store) : Prop :=
  ∃ r : TaskRecord,
    hGetTask st2 taskId = some r ∧
    r.status = "pending" ∧ r.agentId = none ∧ r.startedAt = none ∧
    r.completedAt = none ∧ r.result = none ∧ r.error = none ∧
    (spec.priority = none → r.priority = 3) ∧
    (spec.branch = none → r.branch = "main") ∧
    (taskId, taskScore r.priority now) ∈ st2.pending ∧
    res.taskId = taskId ∧ res.status = "pending" ∧
    res.queuePosition = zRank st2.pending taskId ∧
    res.estimatedWaitTime = estimateWaitTime st2.pending

/-- A concrete pending task record, used to instantiate the cancellation
theorems on explicit inputs (its `context` field holds the serialization
of the empty object). -/
def samplePendingRecord : TaskRecord := {
  id := "task-1"
  instruction := "fix bug"
  repository := "janua"
  branch := "main"
  priority := 1
  context := String.mk ['\x7b', '\x7d']
  submittedBy := "alice"
  submittedAt := 1000
  status := "pending"
  agentId := none
  startedAt := none
  completedAt := none
  result := none
  error := none
  cancelledAt := none
  cancelledBy := none }

/-- A concrete store holding exactly the one pending task above. -/
def samplePendingStore : Store :=
  { tasks := [("task-1", samplePendingRecord)], pending := [("task-1", 1001000)] }

/-- The details view of the sample record. -/
def samplePendingDetails : TaskDetails := detailsOfRecord samplePendingRecord

end TaskQueue

namespace JanuaAuth

/-- `JWKS_CACHE_DURATION` from the middleware: one hour in milliseconds. -/
def jwksCacheDurationMs : Nat := 3600 * 1000

/-- The module-level mutable cache of the middleware: the cached key-set
document (`null` at startup) and the time it was fetched (0 at startup).
The key material is kept as the raw document text. -/
structure JwksState where
  jwksCache : Option String
  jwksCacheTime : Nat
deriving Repr, DecidableEq

/-- One call to `getJWKS`, with the clock reading and the outcome a remote
fetch would have (`none` models a network failure or a non-ok response)
passed explicitly.  `networkCall` records whether the fetch was attempted
at all. -/
structure JwksOutcome where
  result : Except Unit String
  state : JwksState
  networkCall : Bool
deriving Repr

/-- Model of `getJWKS()`: return the cached set unchanged while it is
fresh; otherwise attempt the fetch, replacing the cache on success and
falling back to any existing cache (however stale) on failure; propagate
the failure only when there is no cache at all. -/
def getJWKS (st : JwksState) (now : Nat) (fetchResult : Option String) : JwksOutcome :=
  match st.jwksCache with
  | some cached =>
    if now - st.jwksCacheTime < jwksCacheDurationMs then
      { result := .ok cached, state := st, networkCall := false }
    else
      match fetchResult with
      | some fresh =>
        { result := .ok fresh
          state := { jwksCache := some fresh, jwksCacheTime := now }
          networkCall := true }
      | none => { result := .ok cached, state := st, networkCall := true }
  | none =>
    match fetchResult with
    | some fresh =>
      { result := .ok fresh
        state := { jwksCache := some fresh, jwksCacheTime := now }
        networkCall := true }
    | none => { result := .error (), state := st, networkCall := true }

/-- Model of the JavaScript `s.split(' ')`: split at every single space
character (consecutive spaces yield empty tokens, and the empty string
yields one empty token). -/
def splitCharsAux : List Char → List Char → List String
  | [], acc => [String.mk acc.reverse]
  | c :: r, acc =>
    if c = ' ' then String.mk acc.reverse :: splitCharsAux r []
    else splitCharsAux r (c :: acc)

/-- JS `s.split(' ')` on a whole string. -/
def splitSpace (s : String) : List String := splitCharsAux s.data []

/-- The scope list `authenticateJanuaToken` attaches to the request:
`payload.scope ? payload.scope.split(' ') : []`, where an absent or empty
scope claim is falsy. -/
def authScopes (payloadScope : Option String) : List String :=
  match payloadScope with
  | none => []
  | some s => if s == "" then [] else splitSpace s

/-- Outcome of one middleware layer: pass the request on, or answer with
an error status. -/
inductive MiddlewareResult where
  | next : MiddlewareResult
  | forbidden : MiddlewareResult
deriving Repr, DecidableEq

/-- Model of the handler `requireScope(requiredScope)` returns: a pure
check of the verified identity's scope list, answering 403 when the
required scope is missing and calling the next handler otherwise. -/
def requireScope (requiredScope : String) (userScopes : List String) : MiddlewareResult :=
  if userScopes.contains requiredScope then .next else .forbidden

end JanuaAuth

namespace AgentDiscovery

/-- A container status entry of a pod, as projected by
`discoverAgentPods`. -/
structure ContainerStatusView where
  name : String
  ready : Bool
  restartCount : Nat
  state : Option String
deriving Repr, DecidableEq

/-- One pod of the orchestrator listing, as projected by
`discoverAgentPods` from the Kubernetes answer: the fields
`discoverAgents` reads from it. -/
structure PodInfo where
  name : String
  uid : String
  phase : String
  ready : Bool
  podIP : Option String
  nodeName : Option String
  startTime : Option String
  containerStatuses : List ContainerStatusView
deriving Repr, DecidableEq

/-- Model of a Redis hash read: `.error` models a thrown read, `.ok`
carries the field list (`[]` for a missing key). -/
abbrev HashReadResult := Except Unit (List (String × String))

/-- Model of `hGet` on the result of `hGetAll`. -/
def hGetField (h : List (String × String)) (field : String) : Option String :=
  (h.find? (fun e => e.1 == field)).map (fun e => e.2)

/-- JS `x || d` for a hash field (an absent field and the empty string are
both falsy). -/
def fieldOr (v : Option String) (d : String) : String :=
  match v with
  | none => d
  | some s => if s == "" then d else s

/-- JS `x || null` for a hash field. -/
def fieldOrNull (v : Option String) : Option String :=
  match v with
  | none => none
  | some s => if s == "" then none else some s

/-- Model of JavaScript `parseInt` on the strings the agents store:
optional sign followed by a maximal run of decimal digits; `none` models
`NaN`. -/
def parseIntJS (s : String) : Option Int :=
  match s.data with
  | '-' :: r =>
    let p := JsonModel.takeDigits r
    if p.1.isEmpty then none else some (-(JsonModel.digitsToNat p.1 : Int))
  | l =>
    let p := JsonModel.takeDigits l
    if p.1.isEmpty then none else some ((JsonModel.digitsToNat p.1 : Int))

/-- The self-reported agent state `getAgentStateFromRedis` builds from a
hash.  `lastHeartbeat` keeps the raw stored timestamp string (the source
wraps it in a `Date`); a `none` counter models the `NaN` that `parseInt`
yields on a malformed field. -/
structure AgentState where
  status : String
  currentTask : Option String
  worktreePath : Option String
  lastHeartbeat : Option String
  tasksCompleted : Option Int
  tasksFailed : Option Int
deriving Repr, DecidableEq

/-- Model of `getAgentStateFromRedis(agentId)`: `null` when the hash is
missing or empty, or when the read throws; otherwise the projected state
with per-field defaults. -/
def getAgentStateFromRedis (readResult : HashReadResult) : Option AgentState :=
  match readResult with
  | .error _ => none
  | .ok h =>
    if h.isEmpty then none
    else some {
      status := fieldOr (hGetField h "status") "unknown"
      currentTask := fieldOrNull (hGetField h "task")
      worktreePath := fieldOrNull (hGetField h "worktree")
      lastHeartbeat := fieldOrNull (hGetField h "lastHeartbeat")
      tasksCompleted := parseIntJS (fieldOr (hGetField h "tasksCompleted") "0")
      tasksFailed := parseIntJS (fieldOr (hGetField h "tasksFailed") "0") }

/-- One entry of the `discoverAgents` answer: the orchestrator-reported
fields merged with the self-reported ones. -/
structure AgentView where
  id : String
  uid : String
  status : String
  podStatus : String
  ready : Bool
  podIP : Option String
  nodeName : Option String
  startTime : Option String
  containers : List ContainerStatusView
  agentStatus : String
  currentTask : Option String
  worktreePath : Option String
  lastHeartbeat : Option String
  tasksCompleted : Int
  tasksFailed : Int
deriving Repr, DecidableEq

/-- The per-pod merge `discoverAgents` performs: `redisState?.field`
chains with their `|| 'unknown'` / `|| 0` defaults. -/
def mkAgentView (pod : PodInfo) (redisState : Option AgentState) : AgentView := {
  id := pod.name
  uid := pod.uid
  status := if pod.ready then "ready" else pod.phase.toLower
  podStatus := pod.phase
  ready := pod.ready
  podIP := pod.podIP
  nodeName := pod.nodeName
  startTime := pod.startTime
  containers := pod.containerStatuses
  agentStatus := fieldOr (redisState.map (fun r => r.status)) "unknown"
  currentTask := redisState.bind (fun r => r.currentTask)
  worktreePath := redisState.bind (fun r => r.worktreePath)
  lastHeartbeat := redisState.bind (fun r => r.lastHeartbeat)
  tasksCompleted := (redisState.bind (fun r => r.tasksCompleted)).getD 0
  tasksFailed := (redisState.bind (fun r => r.tasksFailed)).getD 0 }

/-- Model of `discoverAgents()` given the orchestrator answer and the
per-agent hash reads: every pod is enriched independently with its own
Redis read, a failed or empty read degrading only that entry to the
defaults. -/
def discoverAgents (pods : List PodInfo) (readAgent : String → HashReadResult) :
    List AgentView :=
  pods.map (fun pod => mkAgentView pod (getAgentStateFromRedis (readAgent pod.name)))

end AgentDiscovery

namespace JsonModel

theorem digitChar10_toNat (d : Nat) (h : d < 10) : (digitChar10 d).toNat = 48 + d := by
  interval_cases d <;> decide

theorem digitChar10_isDigit (d : Nat) (h : d < 10) : (digitChar10 d).isDigit = true := by
  interval_cases d <;> decide

theorem natDigitsAux_isDigit : ∀ f n, ∀ c ∈ natDigitsAux f n, c.isDigit = true := by
  intro f
  induction f with
  | zero => intro n c hc; simp [natDigitsAux] at hc
  | succ f IH =>
    intro n c hc
    by_cases h0 : n = 0
    · simp [natDigitsAux, h0] at hc
    · simp only [natDigitsAux, h0, if_false, List.mem_append, List.mem_singleton] at hc
      rcases hc with hc | hc
      · exact IH _ c hc
      · subst hc; exact digitChar10_isDigit _ (Nat.mod_lt _ (by omega))

theorem natDigits_isDigit (n : Nat) : ∀ c ∈ natDigits n, c.isDigit = true := by
  intro c hc
  unfold natDigits at hc
  by_cases h0 : n = 0
  · simp [h0] at hc; subst hc; decide
  · simp only [h0, if_false] at hc
    exact natDigitsAux_isDigit n n c hc

theorem natDigitsAux_ne_nil (f n : Nat) (hf : 1 ≤ f) (hn : n ≠ 0) :
    natDigitsAux f n ≠ [] := by
  cases f with
  | zero => omega
  | succ f => simp [natDigitsAux, hn]

theorem natDigits_ne_nil (n : Nat) : natDigits n ≠ [] := by
  unfold natDigits
  by_cases h0 : n = 0
  · simp [h0]
  · simp only [h0, if_false]
    exact natDigitsAux_ne_nil n n (by omega) h0

theorem foldl_digit_append (l : List Char) (a : Nat) (c : Char) :
    (l ++ [c]).foldl (fun a c => a * 10 + (c.toNat - 48)) a
      = (l.foldl (fun a c => a * 10 + (c.toNat - 48)) a) * 10 + (c.toNat - 48) := by
  simp [List.foldl_append]

theorem natDigitsAux_val : ∀ f n, n ≤ f → digitsToNat (natDigitsAux f n) = n := by
  intro f
  induction f with
  | zero => intro n h; interval_cases n; simp [natDigitsAux, digitsToNat]
  | succ f IH =>
    intro n h
    by_cases h0 : n = 0
    · simp [natDigitsAux, h0, digitsToNat]
    · have hd : n / 10 ≤ f := by omega
      have hv := IH (n / 10) hd
      simp only [natDigitsAux, h0, if_false, digitsToNat] at hv ⊢
      rw [foldl_digit_append, hv, digitChar10_toNat _ (Nat.mod_lt _ (by omega))]
      omega

theorem digitsToNat_natDigits (n : Nat) : digitsToNat (natDigits n) = n := by
  unfold natDigits
  by_cases h0 : n = 0
  · simp [h0, digitsToNat]
  · simp only [h0, if_false]
    exact natDigitsAux_val n n le_rfl

theorem takeDigits_append (ds rest : List Char) (hds : ∀ c ∈ ds, c.isDigit = true)
    (hrest : NoDigitHead rest) : takeDigits (ds ++ rest) = (ds, rest) := by
  induction ds with
  | nil =>
    simp only [List.nil_append]
    cases rest with
    | nil => rfl
    | cons c r =>
      have hc : c.isDigit = false := hrest
      simp [takeDigits, hc]
  | cons c ds IH =>
    have hc : c.isDigit = true := hds c (by simp)
    have hds2 : ∀ x ∈ ds, x.isDigit = true := fun x hx => hds x (by simp [hx])
    simp [takeDigits, hc, IH hds2]

theorem parseNumChars_natDigits (n : Nat) (rest : List Char) (hrest : NoDigitHead rest) :
    parseNumChars (natDigits n ++ rest) = some (n, rest) := by
  unfold parseNumChars
  rw [takeDigits_append _ _ (natDigits_isDigit n) hrest]
  simp [natDigits_ne_nil n, List.isEmpty_iff, digitsToNat_natDigits]

theorem hexVal_hexDigitChar (m : Nat) (h : m < 16) : hexVal (hexDigitChar m) = some m := by
  interval_cases m <;> decide

theorem mkChar_toNat (c : Char) (h : c.toNat.isValidChar) : mkChar c.toNat h = c := rfl

theorem parseEscape_control (c : Char) (h32 : c.toNat < 32) (rest : List Char) :
    parseEscape ('u' :: '0' :: '0' :: hexDigitChar (c.toNat / 16)
      :: hexDigitChar (c.toNat % 16) :: rest) = some (c, rest) := by
  have hdiv : c.toNat / 16 < 16 := by omega
  have hmod : c.toNat % 16 < 16 := by omega
  have hvalid : c.toNat.isValidChar := Or.inl (by omega)
  simp only [parseEscape, hexVal_hexDigitChar _ hdiv, hexVal_hexDigitChar _ hmod,
    show hexVal '0' = some 0 from by decide]
  simp only [show (((0 * 16 + 0) * 16 + c.toNat / 16) * 16 + c.toNat % 16) = c.toNat from by
    omega]
  rw [dif_pos hvalid, mkChar_toNat]
  rw [if_neg (by decide), if_neg (by decide), if_neg (by decide), if_neg (by decide),
    if_neg (by decide), if_neg (by decide), if_neg (by decide), if_neg (by decide)]
  simp

theorem parseStringRest_round : ∀ cs : List Char, ∀ f rest, cs.length + 1 ≤ f →
    parseStringRest f (escapeList cs ++ '"' :: rest) = some (cs, rest) := by
  intro cs
  induction cs with
  | nil =>
    intro f rest hf
    cases f with
    | zero => omega
    | succ f => simp [escapeList, parseStringRest]
  | cons c cs IH =>
    intro f rest hf
    cases f with
    | zero => simp at hf
    | succ f =>
      have hrec := IH f rest (by simp at hf ⊢; omega)
      by_cases h1 : c = '"'
      · subst h1; simp [escapeList, escapeChar, parseStringRest, parseEscape, hrec]
      · by_cases h2 : c = '\\'
        · subst h2; simp [escapeList, escapeChar, parseStringRest, parseEscape, hrec]
        · by_cases h3 : c = '\x08'
          · subst h3; simp [escapeList, escapeChar, parseStringRest, parseEscape, hrec]
          · by_cases h4 : c = '\t'
            · subst h4; simp [escapeList, escapeChar, parseStringRest, parseEscape, hrec]
            · by_cases h5 : c = '\n'
              · subst h5; simp [escapeList, escapeChar, parseStringRest, parseEscape, hrec]
              · by_cases h6 : c = '\x0c'
                · subst h6
                  simp [escapeList, escapeChar, parseStringRest, parseEscape, hrec]
                · by_cases h7 : c = '\r'
                  · subst h7
                    simp [escapeList, escapeChar, parseStringRest, parseEscape, hrec]
                  · by_cases h8 : c.toNat < 32
                    · have hesc : escapeChar c = ['\\', 'u', '0', '0',
                          hexDigitChar (c.toNat / 16), hexDigitChar (c.toNat % 16)] := by
                        simp [escapeChar, h1, h2, h3, h4, h5, h6, h7, h8]
                      simp only [escapeList, hesc, List.cons_append, List.nil_append]
                      simp [parseStringRest, parseEscape_control c h8, hrec]
                    · have hesc : escapeChar c = [c] := by
                        simp [escapeChar, h1, h2, h3, h4, h5, h6, h7, h8]
                      simp only [escapeList, hesc, List.cons_append, List.nil_append]
                      simp [parseStringRest, h1, h2, h8, hrec]

theorem noDigitHead_cons (c : Char) (h : c.isDigit = false) (r : List Char) :
    NoDigitHead (c :: r) := h

theorem jfuel_pos (j : Json) : 1 ≤ jfuel j := by
  cases j with
  | null => simp [jfuel]
  | bool b => simp [jfuel]
  | num i => simp [jfuel]
  | str s => simp [jfuel]
  | arr xs => cases xs <;> simp [jfuel]
  | obj ms => cases ms <;> simp [jfuel]

theorem efuel_pos (x : Json) (xs : List Json) : 1 ≤ efuel x xs := by
  cases xs <;> simp [efuel]

theorem mfuel_pos (m : String × Json) (ms : List (String × Json)) : 1 ≤ mfuel m ms := by
  obtain ⟨k, v⟩ := m
  cases ms <;> simp [mfuel]

theorem isDigit_ne (c : Char) (h : c.isDigit = true) :
    c ≠ 'n' ∧ c ≠ 't' ∧ c ≠ 'f' ∧ c ≠ '"' ∧ c ≠ '[' ∧ c ≠ '\x7b' ∧ c ≠ '-' ∧ c ≠ ']' := by
  refine ⟨?_, ?_, ?_, ?_, ?_, ?_, ?_, ?_⟩ <;>
    exact fun he => by subst he; exact absurd h (by decide)

theorem parseJson_digit (f : Nat) (c : Char) (r : List Char) (hc : c.isDigit = true) :
    parseJson (f + 1) (c :: r)
      = (parseNumChars (c :: r)).map (fun p => (Json.num (p.1 : Int), p.2)) := by
  obtain ⟨hn, ht, hf, hq, hl, hb, hm, _⟩ := isDigit_ne c hc
  simp [parseJson, hn, ht, hf, hq, hl, hb, hm, hc]

theorem parseJson_quote (f : Nat) (r : List Char) :
    parseJson (f + 1) ('"' :: r)
      = (parseStringRest f r).map (fun p => (Json.str (String.mk p.1), p.2)) := by
  simp [parseJson]

theorem parseJson_lbracket (f : Nat) (l : List Char) (c : Char) (cs : List Char)
    (hl : l = c :: cs) (hne : c ≠ ']') :
    parseJson (f + 1) ('[' :: l) = (parseElems f l).map (fun p => (Json.arr p.1, p.2)) := by
  subst hl; simp [parseJson, hne]

theorem parseJson_lbrace (f : Nat) (l : List Char) (c : Char) (cs : List Char)
    (hl : l = c :: cs) (hne : c ≠ '\x7d') :
    parseJson (f + 1) ('\x7b' :: l)
      = (parseMembers f l).map (fun p => (Json.obj p.1, p.2)) := by
  subst hl; simp [parseJson, hne]

theorem arrBody_decomp (x : Json) (xs : List Json) :
    ∃ t, arrBody x xs = stringifyChars x ++ t := by
  cases xs with
  | nil => exact ⟨[], by simp [arrBody]⟩
  | cons y ys => exact ⟨',' :: arrBody y ys, by simp [arrBody]⟩

theorem objBody_cons (m : String × Json) (ms : List (String × Json)) :
    ∃ cs, objBody m ms = '"' :: cs := by
  obtain ⟨k, v⟩ := m
  cases ms with
  | nil =>
    exact ⟨escapeList k.data ++ '"' :: ':' :: stringifyChars v,
      by simp [objBody, memberChars]⟩
  | cons m2 ms2 =>
    exact ⟨escapeList k.data ++ '"' :: ':' :: (stringifyChars v ++ ',' :: objBody m2 ms2),
      by simp [objBody, memberChars]⟩

theorem stringify_head (j : Json) : ∃ c cs, stringifyChars j = c :: cs ∧ c ≠ ']' := by
  cases j with
  | null => exact ⟨'n', ['u', 'l', 'l'], by simp [stringifyChars], by decide⟩
  | bool b =>
    cases b with
    | true => exact ⟨'t', ['r', 'u', 'e'], by simp [stringifyChars], by decide⟩
    | false => exact ⟨'f', ['a', 'l', 's', 'e'], by simp [stringifyChars], by decide⟩
  | num i =>
    by_cases hi : i < 0
    · exact ⟨'-', natDigits i.natAbs, by simp [stringifyChars, intChars, hi], by decide⟩
    · cases hq : natDigits i.toNat with
      | nil => exact absurd hq (natDigits_ne_nil _)
      | cons c cs =>
        have hcd : c.isDigit = true := natDigits_isDigit _ c (by rw [hq]; simp)
        exact ⟨c, cs, by simp [stringifyChars, intChars, hi, hq],
          (isDigit_ne c hcd).2.2.2.2.2.2.2⟩
  | str s => exact ⟨'"', escapeList s.data ++ ['"'], by simp [stringifyChars], by decide⟩
  | arr xs =>
    cases xs with
    | nil => exact ⟨'[', [']'], by simp [stringifyChars], by decide⟩
    | cons x xs =>
      exact ⟨'[', arrBody x xs ++ [']'], by simp [stringifyChars], by decide⟩
  | obj ms =>
    cases ms with
    | nil => exact ⟨'\x7b', ['\x7d'], by simp [stringifyChars], by decide⟩
    | cons m ms =>
      exact ⟨'\x7b', objBody m ms ++ ['\x7d'], by simp [stringifyChars], by decide⟩

/-- Master round-trip lemma: with enough fuel, the parser inverts the
serializer (and the two auxiliary parsers invert the corresponding body
serializations), leaving any non-digit-headed remainder untouched. -/
theorem parse_round : ∀ f : Nat,
    (∀ j rest, jfuel j ≤ f → NoDigitHead rest →
      parseJson f (stringifyChars j ++ rest) = some (j, rest))
  ∧ (∀ x xs rest, efuel x xs ≤ f →
      parseElems f (arrBody x xs ++ ']' :: rest) = some (x :: xs, rest))
  ∧ (∀ m ms rest, mfuel m ms ≤ f →
      parseMembers f (objBody m ms ++ '\x7d' :: rest) = some (m :: ms, rest)) := by
  intro f
  induction f using Nat.strong_induction_on with
  | _ f IH =>
  refine ⟨?_, ?_, ?_⟩
  · intro j rest hj hrest
    cases f with
    | zero => exact absurd hj (by have := jfuel_pos j; omega)
    | succ f =>
      have IHf := IH f (Nat.lt_succ_self f)
      cases j with
      | null => simp [stringifyChars, parseJson]
      | bool b => cases b <;> simp [stringifyChars, parseJson]
      | num i =>
        by_cases hi : i < 0
        · have hstr : stringifyChars (Json.num i) = '-' :: natDigits i.natAbs := by
            simp [stringifyChars, intChars, hi]
          have hnum := parseNumChars_natDigits i.natAbs rest hrest
          have habs : ((i.natAbs : Int)) = -i := Int.ofNat_natAbs_of_nonpos (by omega)
          rw [hstr, List.cons_append]
          simp [parseJson, hnum, habs]
        · have hstr : stringifyChars (Json.num i) = natDigits i.toNat := by
            simp [stringifyChars, intChars, hi]
          obtain ⟨c, cs, hnd⟩ : ∃ c cs, natDigits i.toNat = c :: cs := by
            cases hq : natDigits i.toNat with
            | nil => exact absurd hq (natDigits_ne_nil _)
            | cons c cs => exact ⟨c, cs, rfl⟩
          have hcd : c.isDigit = true := natDigits_isDigit _ c (by rw [hnd]; simp)
          have hnum := parseNumChars_natDigits i.toNat rest hrest
          rw [hstr, hnd, List.cons_append]
          rw [hnd, List.cons_append] at hnum
          rw [parseJson_digit f c _ hcd, hnum]
          simp
          omega
      | str s =>
        have hf2 : s.data.length + 1 ≤ f := by
          have hsl : s.data.length = s.length := rfl
          simp [jfuel] at hj
          omega
        have hps := parseStringRest_round s.data f rest hf2
        have hinput : stringifyChars (Json.str s) ++ rest
            = '"' :: (escapeList s.data ++ '"' :: rest) := by
          simp [stringifyChars]
        rw [hinput, parseJson_quote, hps]
        rfl
      | arr xs =>
        cases xs with
        | nil => simp [stringifyChars, parseJson]
        | cons x xs =>
          obtain ⟨t, ht⟩ := arrBody_decomp x xs
          obtain ⟨c, cs, hcons, hne⟩ := stringify_head x
          have hbody : arrBody x xs ++ ']' :: rest = c :: (cs ++ (t ++ ']' :: rest)) := by
            rw [ht, hcons]; simp
          have hfe : efuel x xs ≤ f := by simp [jfuel] at hj; omega
          have hE := IHf.2.1 x xs rest hfe
          have hinput : stringifyChars (Json.arr (x :: xs)) ++ rest
              = '[' :: (arrBody x xs ++ ']' :: rest) := by
            simp [stringifyChars]
          rw [hinput, parseJson_lbracket f _ c _ hbody hne, hE]
          simp
      | obj ms =>
        cases ms with
        | nil => simp [stringifyChars, parseJson]
        | cons m ms =>
          obtain ⟨cs, hcons⟩ := objBody_cons m ms
          have hbody : objBody m ms ++ '\x7d' :: rest
              = '"' :: (cs ++ '\x7d' :: rest) := by
            rw [hcons]; simp
          have hfm : mfuel m ms ≤ f := by simp [jfuel] at hj; omega
          have hM := IHf.2.2 m ms rest hfm
          have hinput : stringifyChars (Json.obj (m :: ms)) ++ rest
              = '\x7b' :: (objBody m ms ++ '\x7d' :: rest) := by
            simp [stringifyChars]
          rw [hinput, parseJson_lbrace f _ '"' _ hbody (by decide), hM]
          simp
  · intro x xs rest he
    cases f with
    | zero => exact absurd he (by have := efuel_pos x xs; omega)
    | succ f =>
      have IHf := IH f (Nat.lt_succ_self f)
      cases xs with
      | nil =>
        have hjx : jfuel x ≤ f := by simp [efuel] at he; omega
        have hpj := IHf.1 x (']' :: rest) hjx (noDigitHead_cons _ (by decide) _)
        have harr : arrBody x [] ++ ']' :: rest = stringifyChars x ++ ']' :: rest := by
          simp [arrBody]
        rw [harr]
        simp [parseElems, hpj]
      | cons y ys =>
        have hjx : jfuel x ≤ f := by simp [efuel] at he; omega
        have hey : efuel y ys ≤ f := by simp [efuel] at he; omega
        have hpj := IHf.1 x (',' :: (arrBody y ys ++ ']' :: rest)) hjx
          (noDigitHead_cons _ (by decide) _)
        have hpe := IHf.2.1 y ys rest hey
        have harr : arrBody x (y :: ys) ++ ']' :: rest
            = stringifyChars x ++ ',' :: (arrBody y ys ++ ']' :: rest) := by
          simp [arrBody]
        rw [harr]
        simp [parseElems, hpj, hpe]
  · intro m ms rest hm
    cases f with
    | zero => exact absurd hm (by have := mfuel_pos m ms; omega)
    | succ f =>
      have IHf := IH f (Nat.lt_succ_self f)
      obtain ⟨k, v⟩ := m
      cases ms with
      | nil =>
        have hkl : k.data.length = k.length := rfl
        have hkf : k.data.length + 1 ≤ f := by simp [mfuel] at hm; omega
        have hjv : jfuel v ≤ f := by simp [mfuel] at hm; omega
        have hps := parseStringRest_round k.data f
          (':' :: (stringifyChars v ++ '\x7d' :: rest)) hkf
        have hpj := IHf.1 v ('\x7d' :: rest) hjv (noDigitHead_cons _ (by decide) _)
        have hobj : objBody (k, v) [] ++ '\x7d' :: rest
            = '"' :: (escapeList k.data ++ '"' :: ':'
                :: (stringifyChars v ++ '\x7d' :: rest)) := by
          simp [objBody, memberChars]
        rw [hobj]
        simp [parseMembers, hps, hpj]
      | cons m2 ms2 =>
        have hkl : k.data.length = k.length := rfl
        have hkf : k.data.length + 1 ≤ f := by simp [mfuel] at hm; omega
        have hjv : jfuel v ≤ f := by simp [mfuel] at hm; omega
        have hm2 : mfuel m2 ms2 ≤ f := by simp [mfuel] at hm; omega
        have hps := parseStringRest_round k.data f
          (':' :: (stringifyChars v ++ ',' :: (objBody m2 ms2 ++ '\x7d' :: rest))) hkf
        have hpj := IHf.1 v (',' :: (objBody m2 ms2 ++ '\x7d' :: rest)) hjv
          (noDigitHead_cons _ (by decide) _)
        have hpm := IHf.2.2 m2 ms2 rest hm2
        have hobj : objBody (k, v) (m2 :: ms2) ++ '\x7d' :: rest
            = '"' :: (escapeList k.data ++ '"' :: ':'
                :: (stringifyChars v ++ ',' :: (objBody m2 ms2 ++ '\x7d' :: rest))) := by
          simp [objBody, memberChars]
        rw [hobj]
        simp [parseMembers, hps, hpj, hpm]

theorem escapeChar_length_pos (c : Char) : 1 ≤ (escapeChar c).length := by
  unfold escapeChar
  split_ifs <;> simp

theorem escapeList_length_ge : ∀ cs : List Char, cs.length ≤ (escapeList cs).length := by
  intro cs
  induction cs with
  | nil => simp [escapeList]
  | cons c cs IH =>
    have := escapeChar_length_pos c
    simp [escapeList]
    omega

theorem intChars_length_pos (i : Int) : 1 ≤ (intChars i).length := by
  unfold intChars
  split_ifs with hi
  · simp
  · cases hq : natDigits i.toNat with
    | nil => exact absurd hq (natDigits_ne_nil _)
    | cons c cs => simp [hq]

/-- The serializer always emits at least as many characters as the fuel
its output needs to parse back, measured through the auxiliary bodies. -/
theorem stringify_fuel_bound : ∀ n : Nat,
    (∀ j, sizeOf j ≤ n → jfuel j ≤ (stringifyChars j).length)
  ∧ (∀ x xs, sizeOf x + sizeOf xs ≤ n → efuel x xs ≤ (arrBody x xs).length + 1)
  ∧ (∀ m ms, sizeOf m + sizeOf ms ≤ n → mfuel m ms ≤ (objBody m ms).length + 1) := by
  intro n
  induction n using Nat.strong_induction_on with
  | _ n IH =>
  refine ⟨?_, ?_, ?_⟩
  · intro j hsz
    cases j with
    | null => simp [jfuel, stringifyChars]
    | bool b => cases b <;> simp [jfuel, stringifyChars]
    | num i =>
      have h2 := intChars_length_pos i
      simp [jfuel, stringifyChars]
      omega
    | str s =>
      have hesc := escapeList_length_ge s.data
      have hsl : s.data.length = s.length := rfl
      simp [jfuel, stringifyChars]
      omega
    | arr xs =>
      cases xs with
      | nil => simp [jfuel, stringifyChars]
      | cons x xs =>
        have hlt : sizeOf x + sizeOf xs < n := by simp at hsz; omega
        have hb := (IH _ hlt).2.1 x xs le_rfl
        simp [jfuel, stringifyChars]
        omega
    | obj ms =>
      cases ms with
      | nil => simp [jfuel, stringifyChars]
      | cons m ms =>
        have hlt : sizeOf m + sizeOf ms < n := by simp at hsz; omega
        have hb := (IH _ hlt).2.2 m ms le_rfl
        simp [jfuel, stringifyChars]
        omega
  · intro x xs hsz
    cases xs with
    | nil =>
      have hlt : sizeOf x < n := by simp at hsz; omega
      have hb := (IH _ hlt).1 x le_rfl
      simp [efuel, arrBody]
      omega
    | cons y ys =>
      have hltx : sizeOf x < n := by simp at hsz; omega
      have hlty : sizeOf y + sizeOf ys < n := by simp at hsz; omega
      have hbx := (IH _ hltx).1 x le_rfl
      have hby := (IH _ hlty).2.1 y ys le_rfl
      simp [efuel, arrBody]
      omega
  · intro m ms hsz
    obtain ⟨k, v⟩ := m
    cases ms with
    | nil =>
      have hlt : sizeOf v < n := by simp at hsz; omega
      have hb := (IH _ hlt).1 v le_rfl
      have hesc := escapeList_length_ge k.data
      have hkl : k.data.length = k.length := rfl
      simp [mfuel, objBody, memberChars]
      omega
    | cons m2 ms2 =>
      have hltv : sizeOf v < n := by simp at hsz; omega
      have hltm : sizeOf m2 + sizeOf ms2 < n := by simp at hsz; omega
      have hbv := (IH _ hltv).1 v le_rfl
      have hbm := (IH _ hltm).2.2 m2 ms2 le_rfl
      have hesc := escapeList_length_ge k.data
      have hkl : k.data.length = k.length := rfl
      simp [mfuel, objBody, memberChars]
      omega

theorem jfuel_le (j : Json) : jfuel j ≤ (stringifyChars j).length :=
  (stringify_fuel_bound (sizeOf j)).1 j le_rfl

/-- Round-trip: parsing the serialization of any JSON value returns the
value. -/
theorem parse_stringify (j : Json) : parseJsonString (stringify j) = some j := by
  have h := (parse_round ((stringifyChars j).length + 1)).1 j []
    (by have := jfuel_le j; omega) trivial
  rw [List.append_nil] at h
  unfold parseJsonString stringify
  simp [h]

theorem stringify_ne_empty (j : Json) : stringify j ≠ "" := by
  obtain ⟨c, cs, hc, _⟩ := stringify_head j
  unfold stringify
  intro h
  have hdata : stringifyChars j = [] := congrArg String.data h
  rw [hc] at hdata
  cases hdata

end JsonModel

namespace TaskQueue

theorem listCharLtB_irrefl : ∀ l : List Char, listCharLtB l l = false := by
  intro l
  induction l with
  | nil => rfl
  | cons a as IH => simp [listCharLtB, IH]

theorem strLtB_irrefl (s : String) : strLtB s s = false := listCharLtB_irrefl s.data

theorem find?_key_unique {l : List (String × Int)} {m : String} {sc : Int}
    (hnodup : (l.map Prod.fst).Nodup) (hmem : (m, sc) ∈ l) :
    l.find? (fun e => e.1 == m) = some (m, sc) := by
  induction l with
  | nil => cases hmem
  | cons a l IH =>
    simp only [List.map_cons, List.nodup_cons] at hnodup
    rcases List.mem_cons.mp hmem with heq | hmem2
    · subst heq
      simp [List.find?]
    · have hne : (a.1 == m) = false := by
        simp only [beq_eq_false_iff_ne, ne_eq]
        intro he
        exact hnodup.1 (by rw [he]; exact List.mem_map.mpr ⟨(m, sc), hmem2, rfl⟩)
      simp only [List.find?_cons, hne]
      exact IH hnodup.2 hmem2

theorem length_filter_mono {α : Type} (l : List α) (p q : α → Bool)
    (hpq : ∀ a ∈ l, p a = true → q a = true) :
    (l.filter p).length ≤ (l.filter q).length := by
  induction l with
  | nil => simp
  | cons b l IH =>
    have hIH := IH (fun a ha hpa => hpq a (List.mem_cons_of_mem b ha) hpa)
    cases hb : p b with
    | true =>
      have hqb := hpq b (List.mem_cons_self b l) hb
      simp [List.filter_cons, hb, hqb]
      omega
    | false =>
      cases hqb : q b with
      | true => simp [List.filter_cons, hb, hqb]; omega
      | false => simp [List.filter_cons, hb, hqb]; exact hIH

theorem length_filter_lt {α : Type} (l : List α) (p q : α → Bool)
    (hpq : ∀ a ∈ l, p a = true → q a = true) (a : α) (ha : a ∈ l)
    (haq : q a = true) (hap : p a = false) :
    (l.filter p).length < (l.filter q).length := by
  induction l with
  | nil => cases ha
  | cons b l IH =>
    have hmono := length_filter_mono l p q
      (fun x hx hpx => hpq x (List.mem_cons_of_mem b hx) hpx)
    rcases List.mem_cons.mp ha with heq | ha2
    · subst heq
      simp [List.filter_cons, hap, haq]
      omega
    · have hIH := IH (fun x hx hpx => hpq x (List.mem_cons_of_mem b hx) hpx) ha2
      cases hb : p b with
      | true =>
        have hqb := hpq b (List.mem_cons_self b l) hb
        simp [List.filter_cons, hb, hqb]
        omega
      | false =>
        cases hqb : q b with
        | true => simp [List.filter_cons, hb, hqb]; omega
        | false => simp [List.filter_cons, hb, hqb]; exact hIH

/-- In any sorted set with unique members, an entry with a strictly
smaller score is ranked strictly before an entry with a larger score. -/
theorem zRank_lt_zRank {s : SortedSet} {m1 m2 : String} {sc1 sc2 : Int}
    (hnodup : (s.map Prod.fst).Nodup) (h1 : (m1, sc1) ∈ s) (h2 : (m2, sc2) ∈ s)
    (hsc : sc1 < sc2) :
    ∃ r1 r2, zRank s m1 = some r1 ∧ zRank s m2 = some r2 ∧ r1 < r2 := by
  refine ⟨(s.filter (fun x => entryLt x (m1, sc1))).length,
    (s.filter (fun x => entryLt x (m2, sc2))).length, ?_, ?_, ?_⟩
  · simp only [zRank, find?_key_unique hnodup h1]
  · simp only [zRank, find?_key_unique hnodup h2]
  · apply length_filter_lt s _ _ ?_ (m1, sc1) h1 ?_ ?_
    · intro a ha hpa
      simp only [entryLt, Bool.or_eq_true, decide_eq_true_eq, Bool.and_eq_true,
        beq_iff_eq] at hpa ⊢
      rcases hpa with h | ⟨h, _⟩
      · exact Or.inl (by omega)
      · exact Or.inl (by omega)
    · simp only [entryLt, Bool.or_eq_true, decide_eq_true_eq]
      exact Or.inl hsc
    · simp [entryLt, strLtB_irrefl]

theorem zAdd_mem (s : SortedSet) (m : String) (sc : Int) : (m, sc) ∈ zAdd s m sc := by
  unfold zAdd
  split_ifs with h
  · rcases List.any_eq_true.mp h with ⟨e, he, hkey⟩
    refine List.mem_map.mpr ⟨e, he, ?_⟩
    simp [hkey]
  · simp

end TaskQueue

namespace TaskQueue

theorem comp_key_put (id : String) (r : TaskRecord) :
    ((fun e : String × TaskRecord => e.1 == id)
        ∘ fun e => if e.1 == id then (id, r) else e)
      = fun e : String × TaskRecord => e.1 == id := by
  funext e
  by_cases he : e.1 = id <;> simp [he]

theorem find?_map_put (l : List (String × TaskRecord)) (id : String) (r : TaskRecord)
    (h : l.any (fun e => e.1 == id) = true) :
    (l.map (fun e => if e.1 == id then (id, r) else e)).find? (fun e => e.1 == id)
      = some (id, r) := by
  rw [List.find?_map, comp_key_put id r]
  obtain ⟨e, he⟩ : ∃ e, l.find? (fun x => x.1 == id) = some e := by
    cases hf : l.find? (fun x => x.1 == id) with
    | none =>
      rcases List.any_eq_true.mp h with ⟨a, ha, hpa⟩
      exact absurd hpa (by simpa using List.find?_eq_none.mp hf a ha)
    | some e => exact ⟨e, rfl⟩
  have hp2 : e.1 = id := by
    have hp := List.find?_some he
    simpa using hp
  rw [he]
  simp [hp2]

theorem find?_append_absent (l : List (String × TaskRecord)) (id : String) (r : TaskRecord)
    (h : l.any (fun e => e.1 == id) = false) :
    (l ++ [(id, r)]).find? (fun e => e.1 == id) = some (id, r) := by
  induction l with
  | nil => simp [List.find?]
  | cons a l IH =>
    simp only [List.any_cons, Bool.or_eq_false_iff] at h
    simp only [List.cons_append, List.find?_cons, h.1]
    exact IH h.2

theorem hGetTask_putTask (st : Store) (taskId : String) (r : TaskRecord) :
    hGetTask (putTask st taskId r) taskId = some r := by
  unfold hGetTask putTask
  cases h : st.tasks.any (fun e => e.1 == taskId) with
  | true =>
    rw [if_pos rfl]
    dsimp only
    rw [find?_map_put st.tasks taskId r h]
    rfl
  | false =>
    rw [if_neg (by simp)]
    dsimp only
    rw [find?_append_absent st.tasks taskId r h]
    rfl

theorem comp_key_modify (id : String)
    (f : TaskRecord → TaskRecord) :
    ((fun e : String × TaskRecord => e.1 == id)
        ∘ fun e => if e.1 == id then (e.1, f e.2) else e)
      = fun e : String × TaskRecord => e.1 == id := by
  funext e
  by_cases he : e.1 = id <;> simp [he]

theorem find?_map_modify (l : List (String × TaskRecord)) (id : String)
    (f : TaskRecord → TaskRecord) :
    (l.map (fun e => if e.1 == id then (e.1, f e.2) else e)).find? (fun e => e.1 == id)
      = (l.find? (fun e => e.1 == id)).map (fun e => (e.1, f e.2)) := by
  rw [List.find?_map, comp_key_modify id f]
  cases he : l.find? (fun e => e.1 == id) with
  | none => simp
  | some e =>
    have hp2 : e.1 = id := by
      have hp := List.find?_some he
      simpa using hp
    simp [hp2]

theorem hGetTask_modifyTask (st : Store) (taskId : String) (f : TaskRecord → TaskRecord) :
    hGetTask (modifyTask st taskId f) taskId = (hGetTask st taskId).map f := by
  unfold hGetTask modifyTask
  rw [find?_map_modify]
  cases st.tasks.find? (fun e => e.1 == taskId) <;> simp

theorem detailsOfRecord_cancel (r : TaskRecord) (uid : String) (now : Int) :
    detailsOfRecord
        { r with
          status := "cancelled"
          cancelledAt := some now
          cancelledBy := some uid }
      = { detailsOfRecord r with
          status := "cancelled"
          cancelledAt := some now
          cancelledBy := some uid } := rfl

theorem isFalsyS_iff (v : Option String) :
    isFalsyS v = true ↔ (v = none ∨ v = some "") := by
  cases v with
  | none => simp [isFalsyS]
  | some s => simp [isFalsyS]

end TaskQueue

namespace TaskQueue

/-- C1: the claim that a task with a smaller priority number always gets a
strictly smaller order key than a task with a larger priority number,
regardless of submission timestamps, fails on the code.  The order key is
`priority * 1000000 + timestamp` and 1000000 ms is only about 16.7
minutes, so a priority-1 task submitted 2000000 ms after a priority-2 task
receives key 3000000 > 2000000 and is ranked after it in the pending
sorted set. -/
theorem c1_priority_order_key_bug :
    taskScore 1 2000000 = 3000000 ∧ taskScore 2 0 = 2000000 ∧
    ¬ taskScore 1 2000000 < taskScore 2 0 ∧
    zRank [("task-p2", taskScore 2 0), ("task-p1", taskScore 1 2000000)] "task-p2"
      = some 0 ∧
    zRank [("task-p2", taskScore 2 0), ("task-p1", taskScore 1 2000000)] "task-p1"
      = some 1 := by
  refine ⟨by decide, by decide, by decide, by decide, by decide⟩

/-- C2: among tasks of equal priority the earlier submission timestamp
yields a strictly smaller order key, hence a strictly smaller 0-indexed
rank in any pending sorted set (with unique members) containing both queue
entries. -/
theorem c2_fifo_within_priority (p t1 t2 : Int) (m1 m2 : String) (s : SortedSet)
    (hts : t1 < t2) (hnodup : (s.map Prod.fst).Nodup)
    (h1 : (m1, taskScore p t1) ∈ s) (h2 : (m2, taskScore p t2) ∈ s) :
    taskScore p t1 < taskScore p t2 ∧
    ∃ r1 r2, zRank s m1 = some r1 ∧ zRank s m2 = some r2 ∧ r1 < r2 := by
  have hsc : taskScore p t1 < taskScore p t2 := by unfold taskScore; omega
  exact ⟨hsc, zRank_lt_zRank hnodup h1 h2 hsc⟩

/-- C2 witness: two priority-3 tasks submitted at 0 ms and 5 ms; the
earlier one is ranked first. -/
theorem c2_fifo_within_priority_witness :
    taskScore 3 0 < taskScore 3 5 ∧
    ∃ r1 r2,
      zRank [("task-a", taskScore 3 0), ("task-b", taskScore 3 5)] "task-a" = some r1 ∧
      zRank [("task-a", taskScore 3 0), ("task-b", taskScore 3 5)] "task-b" = some r2 ∧
      r1 < r2 :=
  c2_fifo_within_priority 3 0 5 "task-a" "task-b"
    [("task-a", taskScore 3 0), ("task-b", taskScore 3 5)]
    (by decide) (by decide) (by decide) (by decide)

/-- C3: `cancelTask` fails with NotFound when no record exists, with
NotAuthorized when the caller is not the submitter, with InvalidState when
the status is not `pending` — each error path leaving the store unchanged —
and otherwise removes the queue entry, marks the record cancelled with
who/when metadata, after which a second cancellation by the submitter
fails with InvalidState on status `cancelled` and leaves the store
unchanged, so the final state is cancelled exactly once. -/
theorem c3_cancel_lifecycle (st : Store) (taskId callerId : String) (now : Int) :
    (getTaskDetails st taskId = none →
      cancelTask st taskId callerId now = (.error .notFound, st))
  ∧ (∀ t, getTaskDetails st taskId = some t → t.submittedBy ≠ callerId →
      cancelTask st taskId callerId now = (.error .notAuthorized, st))
  ∧ (∀ t, getTaskDetails st taskId = some t → t.submittedBy = callerId →
      t.status ≠ "pending" →
      cancelTask st taskId callerId now = (.error (.invalidState t.status), st))
  ∧ (∀ t, getTaskDetails st taskId = some t → t.submittedBy = callerId →
      t.status = "pending" →
      (cancelTask st taskId callerId now).1 = .ok () ∧
      (cancelTask st taskId callerId now).2.pending = zRem st.pending taskId ∧
      getTaskDetails (cancelTask st taskId callerId now).2 taskId
        = some { t with
            status := "cancelled"
            cancelledAt := some now
            cancelledBy := some callerId } ∧
      (∀ now2, cancelTask (cancelTask st taskId callerId now).2 taskId callerId now2
        = (.error (.invalidState "cancelled"), (cancelTask st taskId callerId now).2))) := by
  refine ⟨?_, ?_, ?_, ?_⟩
  · intro h
    unfold cancelTask
    rw [h]
  · intro t hget hne
    simp only [cancelTask, hget]
    rw [if_pos (by simpa [bne_iff_ne] using hne)]
  · intro t hget hsub hstat
    simp only [cancelTask, hget]
    rw [if_neg (by simp [hsub]), if_pos (by simpa [bne_iff_ne] using hstat)]
  · intro t hget hsub hstat
    have hc : cancelTask st taskId callerId now
        = (.ok (), modifyTask { st with pending := zRem st.pending taskId } taskId
            (fun r => { r with
              status := "cancelled"
              cancelledAt := some now
              cancelledBy := some callerId })) := by
      simp only [cancelTask, hget]
      rw [if_neg (by simp [hsub]), if_neg (by simp [hstat])]
    obtain ⟨r, hr, hdr⟩ : ∃ r, hGetTask st taskId = some r ∧ detailsOfRecord r = t := by
      unfold getTaskDetails at hget
      exact Option.map_eq_some'.mp hget
    have hg3 : getTaskDetails (cancelTask st taskId callerId now).2 taskId
        = some { t with
            status := "cancelled"
            cancelledAt := some now
            cancelledBy := some callerId } := by
      rw [hc]
      unfold getTaskDetails
      rw [hGetTask_modifyTask]
      have hg2 : hGetTask { st with pending := zRem st.pending taskId } taskId
          = hGetTask st taskId := rfl
      rw [hg2, hr]
      simp only [Option.map_some']
      rw [detailsOfRecord_cancel, hdr]
    refine ⟨by rw [hc], by rw [hc]; rfl, hg3, ?_⟩
    intro now2
    have hgen : ∀ (st4 : Store) (t2 : TaskDetails), getTaskDetails st4 taskId = some t2 →
        t2.submittedBy = callerId → t2.status = "cancelled" →
        cancelTask st4 taskId callerId now2 = (.error (.invalidState "cancelled"), st4) := by
      intro st4 t2 hg4 hs4 hst4
      simp only [cancelTask, hg4]
      rw [if_neg (by simp [hs4]), if_pos (by simp [hst4]), hst4]
    exact hgen _ _ hg3 (by simp [hsub]) (by simp)

/-- C3 witness: a concrete pending task submitted by alice is cancelled,
and the second cancellation fails with InvalidState on "cancelled". -/
theorem c3_cancel_lifecycle_witness :
    (cancelTask samplePendingStore "task-1" "alice" 2000).1 = .ok () ∧
    (cancelTask samplePendingStore "task-1" "alice" 2000).2.pending
      = zRem samplePendingStore.pending "task-1" ∧
    cancelTask (cancelTask samplePendingStore "task-1" "alice" 2000).2 "task-1" "alice" 3000
      = (.error (.invalidState "cancelled"),
         (cancelTask samplePendingStore "task-1" "alice" 2000).2) := by
  have h := (c3_cancel_lifecycle samplePendingStore "task-1" "alice" 2000).2.2.2
    samplePendingDetails (by rfl) (by rfl) (by rfl)
  exact ⟨h.1, h.2.1, h.2.2.2 3000⟩

/-- C4: cancelling an existing task whose submitter differs from the
caller fails with NotAuthorized and leaves the entire store unchanged: the
same task record (all fields included) is still read back and the pending
queue is untouched. -/
theorem c4_cancel_unauthorized_unchanged (st : Store) (taskId callerId : String)
    (now : Int) (t : TaskDetails) (hget : getTaskDetails st taskId = some t)
    (hne : t.submittedBy ≠ callerId) :
    cancelTask st taskId callerId now = (.error .notAuthorized, st) ∧
    (cancelTask st taskId callerId now).2 = st ∧
    getTaskDetails (cancelTask st taskId callerId now).2 taskId = some t ∧
    (cancelTask st taskId callerId now).2.pending = st.pending := by
  have h : cancelTask st taskId callerId now = (.error .notAuthorized, st) := by
    simp only [cancelTask, hget]
    rw [if_pos (by simpa [bne_iff_ne] using hne)]
  exact ⟨h, by rw [h], by rw [h]; exact hget, by rw [h]⟩

/-- C4 witness: bob cannot cancel alice's pending task; the store is
returned unchanged. -/
theorem c4_cancel_unauthorized_unchanged_witness :
    cancelTask samplePendingStore "task-1" "bob" 2000
      = (.error .notAuthorized, samplePendingStore) ∧
    (cancelTask samplePendingStore "task-1" "bob" 2000).2 = samplePendingStore ∧
    getTaskDetails (cancelTask samplePendingStore "task-1" "bob" 2000).2 "task-1"
      = some samplePendingDetails ∧
    (cancelTask samplePendingStore "task-1" "bob" 2000).2.pending
      = samplePendingStore.pending :=
  c4_cancel_unauthorized_unchanged samplePendingStore "task-1" "bob" 2000
    samplePendingDetails (by rfl) (by decide)

end TaskQueue

namespace TaskQueue

/-- C8 counterexample: a specification whose `instruction` field is
present but empty (and whose `repository` is present and nonempty) is
rejected with ValidationError, although the claim predicts failure exactly
for absent fields. -/
theorem c8_validation_counterexample :
    submitTask ⟨[], []⟩ ⟨some "", some "janua", none, none, none⟩ "alice" "task-1" 1000
      = .error .validationError ∧
    (⟨some "", some "janua", none, none, none⟩ : TaskSpec).instruction ≠ none ∧
    (⟨some "", some "janua", none, none, none⟩ : TaskSpec).repository ≠ none := by
  refine ⟨rfl, by simp, by simp⟩

/-- C8 (amended): `submitTask` fails with ValidationError exactly when the
instruction or the repository field is absent or empty; otherwise it
persists the record with status `pending`, null assignment/progress
fields, priority defaulting to 3 and branch to "main" when unspecified,
inserts the queue entry, and returns the new id with the computed queue
position and wait-time estimate. -/
theorem c8_submit_amended (st : Store) (spec : TaskSpec) (userId taskId : String)
    (now : Int) :
    (submitTask st spec userId taskId now = .error .validationError ↔
      (spec.instruction = none ∨ spec.instruction = some "" ∨
       spec.repository = none ∨ spec.repository = some "")) ∧
    (∀ res st2, submitTask st spec userId taskId now = .ok (res, st2) →
      submitSuccessPost spec taskId now res st2) := by
  by_cases hval : (isFalsyS spec.instruction || isFalsyS spec.repository) = true
  · have herr : submitTask st spec userId taskId now = .error .validationError := by
      unfold submitTask
      rw [if_pos hval]
    refine ⟨⟨fun _ => ?_, fun _ => herr⟩, fun res st2 hok => ?_⟩
    · rcases (by simpa using hval :
          isFalsyS spec.instruction = true ∨ isFalsyS spec.repository = true) with h | h
      · rcases (isFalsyS_iff _).mp h with h2 | h2
        · exact Or.inl h2
        · exact Or.inr (Or.inl h2)
      · rcases (isFalsyS_iff _).mp h with h2 | h2
        · exact Or.inr (Or.inr (Or.inl h2))
        · exact Or.inr (Or.inr (Or.inr h2))
    · rw [herr] at hok
      exact Except.noConfusion hok
  · have hvf : (isFalsyS spec.instruction || isFalsyS spec.repository) = false :=
      Bool.eq_false_iff.mpr hval
    refine ⟨⟨fun herr => ?_, fun hleft => ?_⟩, fun res st2 hok => ?_⟩
    · unfold submitTask at herr
      rw [if_neg (by simp [hvf])] at herr
      exact Except.noConfusion herr
    · exfalso
      rcases hleft with h | h | h | h
      · have hh : isFalsyS spec.instruction = true := (isFalsyS_iff _).mpr (Or.inl h)
        simp [hh] at hvf
      · have hh : isFalsyS spec.instruction = true := (isFalsyS_iff _).mpr (Or.inr h)
        simp [hh] at hvf
      · have hh : isFalsyS spec.repository = true := (isFalsyS_iff _).mpr (Or.inl h)
        simp [hh] at hvf
      · have hh : isFalsyS spec.repository = true := (isFalsyS_iff _).mpr (Or.inr h)
        simp [hh] at hvf
    · unfold submitTask at hok
      rw [if_neg (by simp [hvf])] at hok
      simp only [Except.ok.injEq, Prod.mk.injEq] at hok
      obtain ⟨hres, hst2⟩ := hok
      subst hst2
      subst hres
      refine ⟨_, hGetTask_putTask st taskId _, rfl, rfl, rfl, rfl, rfl, rfl,
        ?_, ?_, ?_, rfl, rfl, rfl, rfl⟩
      · intro hp
        show jsOrInt spec.priority 3 = 3
        rw [hp]
        rfl
      · intro hb
        show jsOrString spec.branch "main" = "main"
        rw [hb]
        rfl
      · exact zAdd_mem _ _ _

end TaskQueue

namespace TaskQueue

open JsonModel

/-- C8 witness: submitting a complete specification into an empty store
persists the record with the defaults and returns position 0 and a
600-second estimate. -/
theorem c8_submit_amended_witness :
    submitSuccessPost ⟨some "fix bug", some "janua", none, none, none⟩ "task-1" 1000
      ⟨"task-1", "pending", some 0, 600⟩
      ⟨[("task-1", ⟨"task-1", "fix bug", "janua", "main", 3, String.mk ['\x7b', '\x7d'],
          "alice", 1000, "pending", none, none, none, none, none, none, none⟩)],
        [("task-1", 3001000)]⟩ :=
  (c8_submit_amended ⟨[], []⟩ ⟨some "fix bug", some "janua", none, none, none⟩
      "alice" "task-1" 1000).2
    ⟨"task-1", "pending", some 0, 600⟩
    ⟨[("task-1", ⟨"task-1", "fix bug", "janua", "main", 3, String.mk ['\x7b', '\x7d'],
        "alice", 1000, "pending", none, none, none, none, none, none, none⟩)],
      [("task-1", 3001000)]⟩
    (by
      have hs : JsonModel.stringify (JsonModel.Json.obj []) = String.mk ['\x7b', '\x7d'] := by
        simp [JsonModel.stringify, JsonModel.stringifyChars]
      simp [submitTask, isFalsyS, effectiveContext, jsTruthy, jsOrString, jsOrInt, hs,
        putTask, zAdd, getQueuePosition, zRank, estimateWaitTime, zCard, taskScore,
        entryLt, strLtB, listCharLtB, List.find?])

/-- C9: the code does not enforce the documented priority range 1-5 on
submission: a specification carrying priority 7 is accepted and the
persisted record's priority field is 7, outside [1,5]. -/
theorem c9_priority_range_bug :
    ((submitTask ⟨[], []⟩ ⟨some "fix bug", some "janua", none, some 7, none⟩
        "alice" "task-1" 1000).toOption.bind
      (fun p => (hGetTask p.2 "task-1").map (fun r => r.priority))) = some 7
    ∧ ¬ ((1 : Int) ≤ 7 ∧ (7 : Int) ≤ 5) := by
  constructor
  · have hs : JsonModel.stringify (JsonModel.Json.obj []) = String.mk ['\x7b', '\x7d'] := by
      simp [JsonModel.stringify, JsonModel.stringifyChars]
    simp [submitTask, isFalsyS, effectiveContext, jsTruthy, jsOrString, jsOrInt, hs,
      putTask, zAdd, getQueuePosition, zRank, estimateWaitTime, zCard, taskScore,
      entryLt, strLtB, listCharLtB, List.find?, hGetTask, Except.toOption]
  · decide

theorem submit_stores_context (st : Store) (spec : TaskSpec) (userId taskId : String)
    (now : Int) (res : SubmitOk) (st2 : Store)
    (hok : submitTask st spec userId taskId now = .ok (res, st2)) :
    ∃ r, hGetTask st2 taskId = some r ∧
      r.context = JsonModel.stringify (effectiveContext spec.context) := by
  unfold submitTask at hok
  by_cases hval : (isFalsyS spec.instruction || isFalsyS spec.repository) = true
  · rw [if_pos hval] at hok
    exact Except.noConfusion hok
  · rw [if_neg hval] at hok
    simp only [Except.ok.injEq, Prod.mk.injEq] at hok
    obtain ⟨hres, hst2⟩ := hok
    subst hst2
    exact ⟨_, hGetTask_putTask st taskId _, rfl⟩

/-- C10 counterexample: submitting a falsy context payload (`false`) and
reading the task back yields the empty object, not the submitted payload,
because the source replaces any falsy context with the empty object before
serialization. -/
theorem c10_context_falsy_counterexample :
    ((submitTask ⟨[], []⟩ ⟨some "fix bug", some "janua", none, none,
        some (Json.bool false)⟩ "alice" "task-1" 1000).toOption.bind
      (fun p => (getTaskDetails p.2 "task-1").map (fun d => d.context)))
      = some (some (Json.obj [])) ∧
    (some (Json.obj []) : Option Json) ≠ some (Json.bool false) := by
  constructor
  · have hs : JsonModel.stringify (JsonModel.Json.obj []) = String.mk ['\x7b', '\x7d'] := by
      simp [JsonModel.stringify, JsonModel.stringifyChars]
    simp [submitTask, isFalsyS, effectiveContext, jsTruthy, jsOrString, jsOrInt, hs,
      putTask, zAdd, getQueuePosition, zRank, estimateWaitTime, zCard, taskScore,
      entryLt, strLtB, listCharLtB, List.find?, hGetTask, Except.toOption,
      getTaskDetails, detailsOfRecord, parseJsonString, parseJson]
  · intro h
    exact Json.noConfusion (Option.some.inj h)

/-- C10 (amended): for every accepted specification, reading the task back
yields a context equal to the submitted payload when that payload is
JS-truthy, and the empty object when the payload was absent or falsy — the
stored context string round-trips through serialization and parsing. -/
theorem c10_context_roundtrip (st : Store) (spec : TaskSpec) (userId taskId : String)
    (now : Int) (res : SubmitOk) (st2 : Store)
    (hok : submitTask st spec userId taskId now = .ok (res, st2)) :
    ∃ d, getTaskDetails st2 taskId = some d ∧
      d.context = some (effectiveContext spec.context) := by
  obtain ⟨r, hr, hctx⟩ := submit_stores_context st spec userId taskId now res st2 hok
  refine ⟨detailsOfRecord r, ?_, ?_⟩
  · unfold getTaskDetails
    rw [hr]
    rfl
  · show (detailsOfRecord r).context = some (effectiveContext spec.context)
    simp only [detailsOfRecord]
    rw [hctx]
    have hne : (JsonModel.stringify (effectiveContext spec.context) == "") = false := by
      rw [beq_eq_false_iff_ne]
      exact JsonModel.stringify_ne_empty _
    rw [if_neg (by simp [hne])]
    exact JsonModel.parse_stringify _

/-- C10 witness: a truthy object payload with one member round-trips
unchanged through submission and read-back. -/
theorem c10_context_roundtrip_witness :
    ∃ d, getTaskDetails
        ⟨[("task-1", ⟨"task-1", "fix bug", "janua", "main", 3,
            String.mk ['\x7b', '"', 'a', '"', ':', 'n', 'u', 'l', 'l', '\x7d'],
            "alice", 1000, "pending", none, none, none, none, none, none, none⟩)],
          [("task-1", 3001000)]⟩ "task-1" = some d ∧
      d.context = some (effectiveContext (some (Json.obj [("a", Json.null)]))) :=
  c10_context_roundtrip ⟨[], []⟩
    ⟨some "fix bug", some "janua", none, none, some (Json.obj [("a", Json.null)])⟩
    "alice" "task-1" 1000 ⟨"task-1", "pending", some 0, 600⟩
    ⟨[("task-1", ⟨"task-1", "fix bug", "janua", "main", 3,
        String.mk ['\x7b', '"', 'a', '"', ':', 'n', 'u', 'l', 'l', '\x7d'],
        "alice", 1000, "pending", none, none, none, none, none, none, none⟩)],
      [("task-1", 3001000)]⟩
    (by
      have hs : JsonModel.stringify (Json.obj [("a", Json.null)])
          = String.mk ['\x7b', '"', 'a', '"', ':', 'n', 'u', 'l', 'l', '\x7d'] := by
        have hd : ("a" : String).data = ['a'] := rfl
        simp [JsonModel.stringify, JsonModel.stringifyChars, JsonModel.objBody,
          JsonModel.memberChars, JsonModel.escapeList, JsonModel.escapeChar, hd]
      simp [submitTask, isFalsyS, effectiveContext, jsTruthy, jsOrString, jsOrInt, hs,
        putTask, zAdd, getQueuePosition, zRank, estimateWaitTime, zCard, taskScore,
        entryLt, strLtB, listCharLtB, List.find?])

end TaskQueue

namespace JanuaAuth

/-- C5: the key cache fails only when empty and unfetchable; a fresh cache
is returned unchanged with no network call; on fetch failure any cached
set (however old) is returned, and the cache is never cleared on
failure. -/
theorem c5_jwks_cache_policy (st : JwksState) (now : Nat) (fetchResult : Option String) :
    ((getJWKS st now fetchResult).result = .error () ↔
      (st.jwksCache = none ∧ fetchResult = none))
  ∧ (∀ c, st.jwksCache = some c → now - st.jwksCacheTime < jwksCacheDurationMs →
      getJWKS st now fetchResult
        = { result := .ok c, state := st, networkCall := false })
  ∧ (∀ c, st.jwksCache = some c → fetchResult = none →
      (getJWKS st now fetchResult).result = .ok c ∧
      (getJWKS st now fetchResult).state = st)
  ∧ (fetchResult = none → (getJWKS st now fetchResult).state.jwksCache = st.jwksCache) := by
  obtain ⟨cache, time⟩ := st
  cases cache with
  | none =>
    cases fetchResult with
    | none =>
      refine ⟨by simp [getJWKS], ?_, ?_, by intro _; rfl⟩
      · intro c hc
        exact Option.noConfusion hc
      · intro c hc
        exact Option.noConfusion hc
    | some k =>
      refine ⟨by simp [getJWKS], ?_, ?_, ?_⟩
      · intro c hc
        exact Option.noConfusion hc
      · intro c hc
        exact Option.noConfusion hc
      · intro hf
        exact Option.noConfusion hf
  | some c0 =>
    by_cases hfresh : now - time < jwksCacheDurationMs
    · refine ⟨by simp [getJWKS, hfresh], ?_, ?_, ?_⟩
      · intro c hc h2
        injection hc with h
        subst h
        simp [getJWKS, hfresh]
      · intro c hc hf
        injection hc with h
        subst h
        constructor <;> simp [getJWKS, hfresh]
      · intro hf
        simp [getJWKS, hfresh]
    · cases fetchResult with
      | none =>
        refine ⟨by simp [getJWKS, hfresh], ?_, ?_, by intro _; simp [getJWKS, hfresh]⟩
        · intro c hc h2
          exact absurd h2 hfresh
        · intro c hc hf
          injection hc with h
          subst h
          constructor <;> simp [getJWKS, hfresh]
      | some k =>
        refine ⟨by simp [getJWKS, hfresh], ?_, ?_, ?_⟩
        · intro c hc h2
          exact absurd h2 hfresh
        · intro c hc hf
          exact Option.noConfusion hf
        · intro hf
          exact Option.noConfusion hf

/-- C5 witness: a cache fetched at time 0 is fresh at time 1000 and is
returned unchanged without a network call. -/
theorem c5_jwks_cache_policy_witness :
    getJWKS ⟨some "keyset", 0⟩ 1000 none
      = { result := .ok "keyset", state := ⟨some "keyset", 0⟩, networkCall := false } :=
  (c5_jwks_cache_policy ⟨some "keyset", 0⟩ 1000 none).2.1 "keyset" rfl (by decide)

/-- C7: for a verified identity whose scope claim is the capability string,
`requireScope` passes exactly when the string contains the required
capability as one of its space-separated tokens, and answers 403 otherwise;
the check is a pure function of the scope list. -/
theorem c7_require_scope (scope requiredScope : String) (hne : requiredScope ≠ "") :
    (requireScope requiredScope (authScopes (some scope)) = .next ↔
      requiredScope ∈ splitSpace scope)
    ∧ (requireScope requiredScope (authScopes (some scope)) = .forbidden ↔
      requiredScope ∉ splitSpace scope) := by
  by_cases hs : scope = ""
  · subst hs
    have h2 : splitSpace "" = [""] := rfl
    have h3 : requireScope requiredScope (authScopes (some "")) = .forbidden := rfl
    rw [h2, h3]
    constructor
    · constructor
      · intro hnext
        exact absurd hnext (by simp)
      · intro hmem
        simp at hmem
        exact absurd hmem hne
    · constructor
      · intro _
        simp [hne]
      · intro _
        rfl
  · have h1 : authScopes (some scope) = splitSpace scope := by
      simp [authScopes, hs]
    rw [h1]
    unfold requireScope
    by_cases hmem : requiredScope ∈ splitSpace scope
    · rw [if_pos (by simp [hmem])]
      simp [hmem]
    · rw [if_neg (by simp [hmem])]
      simp [hmem]

/-- C7 witness: the control scope passes against a two-token capability
string and a missing scope is refused. -/
theorem c7_require_scope_witness :
    requireScope "agent:control" (authScopes (some "agent:view agent:control")) = .next
    ∧ requireScope "agent:deploy" (authScopes (some "agent:view agent:control"))
        = .forbidden :=
  ⟨(c7_require_scope "agent:view agent:control" "agent:control" (by decide)).1.mpr
      (by decide),
   (c7_require_scope "agent:view agent:control" "agent:deploy" (by decide)).2.mpr
      (by decide)⟩

end JanuaAuth

namespace AgentDiscovery

/-- C6: the listing never fails for self-reported-state reasons: it has
one view per pod, each pod's view depends only on that pod's own Redis
read, and a missing or failed read leaves that entry with agentStatus
"unknown", zero counters, and null heartbeat/current-task/worktree
fields. -/
theorem c6_reconciler_defaults (pods : List PodInfo) (readAgent : String → HashReadResult) :
    (discoverAgents pods readAgent).length = pods.length
  ∧ ∀ (i : Nat) (pod : PodInfo), pods[i]? = some pod →
      ((discoverAgents pods readAgent)[i]?
        = some (mkAgentView pod (getAgentStateFromRedis (readAgent pod.name)))
      ∧ (∀ readAgent2 : String → HashReadResult,
          readAgent2 pod.name = readAgent pod.name →
          (discoverAgents pods readAgent2)[i]? = (discoverAgents pods readAgent)[i]?)
      ∧ (getAgentStateFromRedis (readAgent pod.name) = none →
          (mkAgentView pod (getAgentStateFromRedis (readAgent pod.name))).agentStatus
            = "unknown"
          ∧ (mkAgentView pod (getAgentStateFromRedis (readAgent pod.name))).tasksCompleted
            = 0
          ∧ (mkAgentView pod (getAgentStateFromRedis (readAgent pod.name))).tasksFailed
            = 0
          ∧ (mkAgentView pod (getAgentStateFromRedis (readAgent pod.name))).currentTask
            = none
          ∧ (mkAgentView pod (getAgentStateFromRedis (readAgent pod.name))).worktreePath
            = none
          ∧ (mkAgentView pod (getAgentStateFromRedis (readAgent pod.name))).lastHeartbeat
            = none)) := by
  refine ⟨by simp [discoverAgents], ?_⟩
  intro i pod hpod
  have hmap : (discoverAgents pods readAgent)[i]?
      = some (mkAgentView pod (getAgentStateFromRedis (readAgent pod.name))) := by
    simp [discoverAgents, List.getElem?_map, hpod]
  refine ⟨hmap, ?_, ?_⟩
  · intro ra2 hra
    have hmap2 : (discoverAgents pods ra2)[i]?
        = some (mkAgentView pod (getAgentStateFromRedis (ra2 pod.name))) := by
      simp [discoverAgents, List.getElem?_map, hpod]
    rw [hmap2, hmap, hra]
  · intro hnone
    rw [hnone]
    exact ⟨rfl, rfl, rfl, rfl, rfl, rfl⟩

/-- C6 witness: one pod whose Redis read throws still yields a view, with
the unknown defaults. -/
theorem c6_reconciler_defaults_witness :
    (discoverAgents [⟨"agent-1", "uid-1", "Running", true, none, none, none, []⟩]
        (fun _ => .error ())).length = 1
    ∧ (discoverAgents [⟨"agent-1", "uid-1", "Running", true, none, none, none, []⟩]
        (fun _ => .error ()))[0]?
      = some (mkAgentView ⟨"agent-1", "uid-1", "Running", true, none, none, none, []⟩
          (getAgentStateFromRedis (.error ())))
    ∧ (mkAgentView ⟨"agent-1", "uid-1", "Running", true, none, none, none, []⟩
        (getAgentStateFromRedis (.error ()))).agentStatus = "unknown"
    ∧ (mkAgentView ⟨"agent-1", "uid-1", "Running", true, none, none, none, []⟩
        (getAgentStateFromRedis (.error ()))).tasksCompleted = 0 := by
  have h := c6_reconciler_defaults
    [⟨"agent-1", "uid-1", "Running", true, none, none, none, []⟩] (fun _ => .error ())
  have h2 := h.2 0 ⟨"agent-1", "uid-1", "Running", true, none, none, none, []⟩ rfl
  have h3 := h2.2.2 rfl
  exact ⟨h.1, h2.1, h3.1, h3.2.1⟩

end AgentDiscovery
